import Mathlib

/-!
Shallow embedding of the YAML lint diagnostic provider of the
yamllint-ts VS Code extension (src/diagnostics.ts), together with proofs
about configuration resolution, debounce scheduling and diagnostic mapping.

The stateful provider is modelled as explicit state passing over a
`ProviderState` record; the host IDE, the file system and the external rule
engine are modelled by an `Env` record of pure functions.  JavaScript object
identity of configuration objects is modelled by an allocation counter: each
construction of a configuration draws a fresh `objId`.
-/

namespace Yamllint

/-- Severity values of the VS Code diagnostic API used by the extension. -/
inductive DiagnosticSeverity where
  | Error
  | Warning
  deriving DecidableEq, Repr

/-- Source a yamllint configuration object was built from: a file path
(YamlLintConfig.fromFile) or inline text (the YamlLintConfig constructor). -/
inductive ConfigSource where
  | fromFile (path : String)
  | fromString (text : String)
  deriving DecidableEq, Repr

/-- Model of a yamllint-ts YamlLintConfig object.  The field objId models
JavaScript object identity: every construction allocates a fresh id, so two
configs are the identical object exactly when they are equal here. -/
structure YamlLintConfig where
  objId : Nat
  source : ConfigSource
  deriving DecidableEq, Repr

/-- A problem reported by the yamllint-ts engine: 1-based line and column,
message, level string, and an optional rule identifier. -/
structure LintProblem where
  line : Int
  column : Int
  message : String
  level : String
  rule : Option String
  deriving DecidableEq, Repr

/-- A VS Code range, recorded as the four numbers the extension passes to the
Range constructor: new Range(startLine, startCharacter, endLine, endCharacter). -/
structure Range where
  startLine : Nat
  startCharacter : Nat
  endLine : Nat
  endCharacter : Nat
  deriving DecidableEq, Repr

/-- A VS Code diagnostic as built by the extension. -/
structure Diagnostic where
  range : Range
  message : String
  severity : DiagnosticSeverity
  source : Option String
  code : Option String
  deriving DecidableEq, Repr

/-- A VS Code text document: its identity (uri and fsPath) and its lines of
text.  VS Code guarantees lineCount is at least 1. -/
structure TextDocument where
  uri : String
  fsPath : String
  lines : List (List Char)
  deriving DecidableEq, Repr

/-- Model of document.lineCount. -/
def TextDocument.lineCount (d : TextDocument) : Nat := d.lines.length

/-- Model of document.lineAt(i).text. -/
def TextDocument.lineAt (d : TextDocument) (i : Nat) : List Char := d.lines.getD i []

/-- Model of document.getText(). -/
def TextDocument.getText (d : TextDocument) : String :=
  String.intercalate "\n" (d.lines.map List.asString)

/-- Characters matched by the JavaScript whitespace character class used in the
regular expression test of problemToDiagnostic. -/
def isJsSpace (ch : Char) : Bool :=
  ch = ' ' || ch = '\t' || ch = '\n' || ch = '\r' || ch = '\x0b' || ch = '\x0c' ||
  ch.toNat = 0x00A0 || ch.toNat = 0x1680 ||
  (Nat.ble 0x2000 ch.toNat && Nat.ble ch.toNat 0x200A) ||
  ch.toNat = 0x2028 || ch.toNat = 0x2029 || ch.toNat = 0x202F || ch.toNat = 0x205F ||
  ch.toNat = 0x3000 || ch.toNat = 0xFEFF

/-- Model of the scanning while loop of problemToDiagnostic: starting at
column, advance endColumn over consecutive non-whitespace characters of the
line text, stopping at whitespace or the end of the line. -/
def scanWordEnd (lineText : List Char) (column : Nat) : Nat :=
  column + ((lineText.drop column).takeWhile (fun ch => !isJsSpace ch)).length

/-- Model of the end-column computation of problemToDiagnostic: extend to the
end of the word; if no characters were consumed, set endColumn to column + 1
clamped to the line length. -/
def extendToWordEnd (lineText : List Char) (column : Nat) : Nat :=
  let endColumn := scanWordEnd lineText column
  if endColumn = column then min (column + 1) lineText.length else endColumn

/-- Model of problemToDiagnostic of src/diagnostics.ts: convert a 1-based
engine problem into a 0-based VS Code diagnostic, widening the range to the
word under the start position.  The rule id is copied into the diagnostic code
only when it passes the JavaScript truthiness test (present and non-empty). -/
def problemToDiagnostic (problem : LintProblem) (document : TextDocument) : Diagnostic :=
  let line : Nat := (max 0 (problem.line - 1)).toNat
  let column : Nat := (max 0 (problem.column - 1)).toNat
  let lineText : List Char := document.lineAt (min line (document.lineCount - 1))
  let endColumn : Nat := extendToWordEnd lineText column
  { range := ⟨line, column, line, endColumn⟩
    message := problem.message
    severity := if problem.level = "error" then DiagnosticSeverity.Error
                else DiagnosticSeverity.Warning
    source := some "yamllint"
    code := match problem.rule with
      | some rule => if rule = "" then none else some rule
      | none => none }

/-- The candidate configuration file names, in priority order (CONFIG_FILE_NAMES). -/
def CONFIG_FILE_NAMES : List String :=
  [".yamllint", ".yamllint.yaml", ".yamllint.yml", ".yamllint.json"]

/-- The inlined default yamllint configuration text (DEFAULT_CONFIG; the
quoting of the three glob patterns is elided). -/
def DEFAULT_CONFIG : String :=
  "---\nyaml-files:\n  - *.yaml\n  - *.yml\n  - .yamllint\n\nrules:\n  anchors: enable\n  braces: enable\n  brackets: enable\n  colons: enable\n  commas: enable\n  comments:\n    level: warning\n  comments-indentation:\n    level: warning\n  document-end: disable\n  document-start:\n    level: warning\n  empty-lines: enable\n  empty-values: disable\n  float-values: disable\n  hyphens: enable\n  indentation: enable\n  key-duplicates: enable\n  key-ordering: disable\n  line-length: enable\n  new-line-at-end-of-file: enable\n  new-lines: enable\n  octal-values: disable\n  quoted-strings: disable\n  trailing-spaces: enable\n  truthy:\n    level: warning\n"

/-- Model of path.join(base, name). -/
def pathJoin (base : String) (name : String) : String := base ++ "/" ++ name

/-- Model of path.resolve(base, p): an absolute path stands as given, a
relative path is resolved against the base. -/
def pathResolve (base : String) (p : String) : String :=
  if p.startsWith "/" then p else base ++ "/" ++ p

/-- The environment the provider reads: the workspace settings, the workspace
folder of the document under lint (getWorkspaceFolder, modelled per document),
the file system, and the external rule engine.  parseOk p holds exactly when
YamlLintConfig.fromFile p succeeds; runAll returns the problem list or the
message of a thrown error. -/
structure Env where
  enable : Bool
  userConfigPath : String
  debounceTimeSetting : Nat
  workspacePath : Option String
  fileExists : String → Bool
  parseOk : String → Bool
  runAll : String → YamlLintConfig → String → Except String (List LintProblem)

/-- A pending host timer created by setTimeout: its id, the uri key it was
scheduled under, and the document captured by the callback closure. -/
structure PendingTimer where
  id : Nat
  uri : String
  doc : TextDocument
  deriving DecidableEq, Repr

/-- The mutable state of YamlLintDiagnosticProvider, together with the host
timer queue that setTimeout and clearTimeout manipulate.  nextObjId is the
allocation counter for configuration objects, nextTimerId the one for timers. -/
structure ProviderState where
  diagnostics : String → Option (List Diagnostic)
  debounceTimers : String → Option Nat
  configCache : String → Option (Option YamlLintConfig)
  debounceTime : Nat
  nextObjId : Nat
  pendingTimers : List PendingTimer
  nextTimerId : Nat

/-- Pointwise update modelling Map.set. -/
def mapSet {α : Type} (m : String → Option α) (k : String) (v : α) : String → Option α :=
  fun x => if x = k then some v else m x

/-- Pointwise removal modelling Map.delete. -/
def mapDelete {α : Type} (m : String → Option α) (k : String) : String → Option α :=
  fun x => if x = k then none else m x

/-- Model of the cache lookup idiom of getYamlLintConfig: has(key) followed by
a truthiness test of get(key); a stored null falls through like a miss. -/
def cacheHit (m : String → Option (Option YamlLintConfig)) (k : String) :
    Option YamlLintConfig :=
  match m k with
  | some (some cached) => some cached
  | _ => none

/-- The sentinel cache key for the built-in default configuration. -/
def defaultKey : String := "__default__"

/-- Model of the workspace candidate loop of getYamlLintConfig: for each
candidate file name in order, return a cached config when present, otherwise
load the file when it exists and parses (caching the result); a load failure
is caught and the loop continues with the next candidate. -/
def searchWorkspaceConfig (env : Env) (ws : String) :
    List String → ProviderState → Option (YamlLintConfig × ProviderState)
  | [], _ => none
  | configName :: rest, st =>
    let configPath := pathJoin ws configName
    match cacheHit st.configCache configPath with
    | some cached => some (cached, st)
    | none =>
      if env.fileExists configPath && env.parseOk configPath then
        let config : YamlLintConfig := ⟨st.nextObjId, ConfigSource.fromFile configPath⟩
        some (config, { st with
          configCache := mapSet st.configCache configPath (some config),
          nextObjId := st.nextObjId + 1 })
      else
        searchWorkspaceConfig env ws rest st

/-- Model of the default fallback of getYamlLintConfig: return the cached
default configuration, or construct it from DEFAULT_CONFIG and cache it under
the sentinel key. -/
def useDefaultConfig (st : ProviderState) : YamlLintConfig × ProviderState :=
  match cacheHit st.configCache defaultKey with
  | some cached => (cached, st)
  | none =>
    let config : YamlLintConfig := ⟨st.nextObjId, ConfigSource.fromString DEFAULT_CONFIG⟩
    (config, { st with
      configCache := mapSet st.configCache defaultKey (some config),
      nextObjId := st.nextObjId + 1 })

/-- Model of the workspace search plus default fallback of getYamlLintConfig. -/
def searchOrDefault (env : Env) (st : ProviderState) : YamlLintConfig × ProviderState :=
  match env.workspacePath with
  | some workspacePath =>
    match searchWorkspaceConfig env workspacePath CONFIG_FILE_NAMES st with
    | some result => result
    | none => useDefaultConfig st
  | none => useDefaultConfig st

/-- Model of the resolution of the user-specified config path against the
workspace root. -/
def resolvedUserPath (env : Env) : String :=
  match env.workspacePath with
  | some workspacePath => pathResolve workspacePath env.userConfigPath
  | none => env.userConfigPath

/-- Model of getYamlLintConfig of src/diagnostics.ts: a non-empty
user-specified config path is tried first (cache, then load; a failed load is
caught, logged and abandoned), then the four workspace candidate files, then
the built-in default. -/
def getYamlLintConfig (env : Env) (st : ProviderState) : YamlLintConfig × ProviderState :=
  if env.userConfigPath = "" then searchOrDefault env st
  else
    match cacheHit st.configCache (resolvedUserPath env) with
    | some cached => (cached, st)
    | none =>
      if env.parseOk (resolvedUserPath env) then
        let config : YamlLintConfig :=
          ⟨st.nextObjId, ConfigSource.fromFile (resolvedUserPath env)⟩
        (config, { st with
          configCache := mapSet st.configCache (resolvedUserPath env) (some config),
          nextObjId := st.nextObjId + 1 })
      else searchOrDefault env st

/-- Model of updateConfiguration: re-read the debounce time setting and clear
the whole config cache. -/
def updateConfiguration (env : Env) (st : ProviderState) : ProviderState :=
  { st with
    debounceTime := env.debounceTimeSetting,
    configCache := fun _ => none }

/-- Model of clear: delete the diagnostics of the document and cancel and
remove its pending debounce timer, when one exists. -/
def clear (st : ProviderState) (document : TextDocument) : ProviderState :=
  let st' := { st with diagnostics := mapDelete st.diagnostics document.uri }
  match st'.debounceTimers document.uri with
  | some timer =>
    { st' with
      pendingTimers := st'.pendingTimers.filter (fun t => t.id ≠ timer),
      debounceTimers := mapDelete st'.debounceTimers document.uri }
  | none => st'

/-- Model of lint: when linting is disabled, clear the document and return;
otherwise resolve the configuration, run the engine, and publish the mapped
diagnostics, replacing the previous set; a thrown engine error is caught and
published as a single synthetic error diagnostic at the first character. -/
def lint (env : Env) (st : ProviderState) (document : TextDocument) : ProviderState :=
  if env.enable then
    let resolved := getYamlLintConfig env st
    let st' := resolved.2
    match env.runAll document.getText resolved.1 document.fsPath with
    | Except.ok problems =>
      let diagnostics := problems.map (fun problem => problemToDiagnostic problem document)
      { st' with diagnostics := mapSet st'.diagnostics document.uri diagnostics }
    | Except.error e =>
      let diagnostic : Diagnostic :=
        { range := ⟨0, 0, 0, 0⟩
          message := "yamllint error: " ++ e
          severity := DiagnosticSeverity.Error
          source := some "yamllint"
          code := none }
      { st' with diagnostics := mapSet st'.diagnostics document.uri [diagnostic] }
  else clear st document

/-- Model of lintWithDebounce: clear any existing timer registered for the
uri, then register a fresh timer whose callback deletes the map entry and
lints the captured document. -/
def lintWithDebounce (st : ProviderState) (document : TextDocument) : ProviderState :=
  let uri := document.uri
  let st' := match st.debounceTimers uri with
    | some existingTimer =>
      { st with pendingTimers := st.pendingTimers.filter (fun t => t.id ≠ existingTimer) }
    | none => st
  let timer := st'.nextTimerId
  { st' with
    pendingTimers := st'.pendingTimers ++ [⟨timer, uri, document⟩],
    nextTimerId := timer + 1,
    debounceTimers := mapSet st'.debounceTimers uri timer }

/-- Model of a pending timer expiring: when the id is still pending the host
removes it and runs its callback (delete the map entry for the uri, then lint
the captured document); an id already cancelled by clearTimeout is absent and
firing it does nothing. -/
def fireTimer (env : Env) (st : ProviderState) (id : Nat) : ProviderState :=
  match st.pendingTimers.find? (fun t => t.id == id) with
  | some t =>
    let st' := { st with pendingTimers := st.pendingTimers.filter (fun u => u.id ≠ id) }
    let st'' := { st' with debounceTimers := mapDelete st'.debounceTimers t.uri }
    lint env st'' t.doc
  | none => st

/-- The operations through which the host drives the provider. -/
inductive ProviderOp where
  | oplint (d : TextDocument)
  | opdebounce (d : TextDocument)
  | opclear (d : TextDocument)
  | opfire (id : Nat)
  | opupdate

/-- One host-driven step of the provider. -/
def applyOp (env : Env) (st : ProviderState) : ProviderOp → ProviderState
  | ProviderOp.oplint d => lint env st d
  | ProviderOp.opdebounce d => lintWithDebounce st d
  | ProviderOp.opclear d => clear st d
  | ProviderOp.opfire id => fireTimer env st id
  | ProviderOp.opupdate => updateConfiguration env st

/-- The pending timers scheduled under a given uri. -/
def pendingFor (st : ProviderState) (uri : String) : List PendingTimer :=
  st.pendingTimers.filter (fun t => t.uri == uri)

/-- Consistency of the timer state: every pending timer is recorded in the
debounce map under its own uri and only there, recorded ids and pending ids
are bounded by the id counter, and pending ids are pairwise distinct. -/
def TimerInv (st : ProviderState) : Prop :=
  (∀ t ∈ st.pendingTimers, st.debounceTimers t.uri = some t.id ∧ t.id < st.nextTimerId) ∧
  (∀ v id, st.debounceTimers v = some id → id < st.nextTimerId) ∧
  (∀ t ∈ st.pendingTimers, ∀ v, st.debounceTimers v = some t.id → v = t.uri) ∧
  st.pendingTimers.Pairwise (fun a b => a.id ≠ b.id)

/-- Modelled from the spec wording of the resolution order (section 4.1), for
comparison with getYamlLintConfig: the user-specified path when set and
parsable, else the first workspace candidate file that exists and parses,
else the built-in default. -/
def specResolveSource (env : Env) : ConfigSource :=
  if env.userConfigPath ≠ "" ∧ env.parseOk (resolvedUserPath env) = true then
    ConfigSource.fromFile (resolvedUserPath env)
  else
    match env.workspacePath with
    | some ws =>
      match CONFIG_FILE_NAMES.find?
          (fun n => env.fileExists (pathJoin ws n) && env.parseOk (pathJoin ws n)) with
      | some n => ConfigSource.fromFile (pathJoin ws n)
      | none => ConfigSource.fromString DEFAULT_CONFIG
    | none => ConfigSource.fromString DEFAULT_CONFIG

/-- When the start column lies strictly inside the line, the computed end
column is at least one past the start column. -/
theorem extendToWordEnd_ge (lineText : List Char) (column : Nat)
    (h : column < lineText.length) : column + 1 ≤ extendToWordEnd lineText column := by
  have hne : lineText.drop column ≠ [] := by
    intro hnil
    have := List.length_drop column lineText
    rw [hnil] at this
    simp at this
    omega
  obtain ⟨ch, rest, hd⟩ := List.exists_cons_of_ne_nil hne
  unfold extendToWordEnd scanWordEnd
  rw [hd]
  cases hsp : isJsSpace ch with
  | false =>
    rw [List.takeWhile_cons_of_pos (by simp [hsp])]
    simp only [List.length_cons]
    rw [if_neg (by omega)]
    omega
  | true =>
    rw [List.takeWhile_cons_of_neg (by simp [hsp])]
    simp only [List.length_nil, Nat.add_zero]
    rw [if_pos trivial]
    omega

/-- When the line text from the start column onward is entirely whitespace and
the start column lies strictly inside the line, the computed end column is
exactly one past the start column. -/
theorem extendToWordEnd_all_space (lineText : List Char) (column : Nat)
    (h : column < lineText.length)
    (hw : ∀ ch ∈ lineText.drop column, isJsSpace ch = true) :
    extendToWordEnd lineText column = column + 1 := by
  have hne : lineText.drop column ≠ [] := by
    intro hnil
    have := List.length_drop column lineText
    rw [hnil] at this
    simp at this
    omega
  obtain ⟨ch, rest, hd⟩ := List.exists_cons_of_ne_nil hne
  have hsp : isJsSpace ch = true := hw ch (by rw [hd]; exact List.mem_cons_self ch rest)
  unfold extendToWordEnd scanWordEnd
  rw [hd]
  rw [List.takeWhile_cons_of_neg (by simp [hsp])]
  simp only [List.length_nil, Nat.add_zero]
  rw [if_pos trivial]
  omega

/-- When the start column is at or past the end of the line, the computed end
column is clamped to the line length. -/
theorem extendToWordEnd_past_end (lineText : List Char) (column : Nat)
    (h : lineText.length ≤ column) :
    extendToWordEnd lineText column = lineText.length := by
  have hd : lineText.drop column = [] := List.drop_eq_nil_of_le h
  unfold extendToWordEnd scanWordEnd
  rw [hd]
  simp only [List.takeWhile_nil, List.length_nil, Nat.add_zero]
  rw [if_pos trivial]
  omega

/-- C1 counterexample: for a problem at line 1, column 1 of a document whose
single line is empty, problemToDiagnostic emits the range (0,0)-(0,0), a
zero-width range, refuting the claim that the produced range always has width
at least 1. -/
theorem problemToDiagnostic_zero_width_counterexample :
    (problemToDiagnostic ⟨1, 1, "m", "error", none⟩ ⟨"u", "/u", [[]]⟩).range.startCharacter = 0 ∧
    (problemToDiagnostic ⟨1, 1, "m", "error", none⟩ ⟨"u", "/u", [[]]⟩).range.endCharacter = 0 :=
  ⟨rfl, rfl⟩

/-- C1 amended: when the 0-based start column lies strictly before the end of
the scanned line, the range is at least one character wide, and exactly one
character wide when the line text from the start column onward is entirely
whitespace; when the start column is at or past the end of the line, the end
column is clamped to the line length, so the range can be zero-width. -/
theorem problemToDiagnostic_min_width (p : LintProblem) (d : TextDocument) :
    (problemToDiagnostic p d).range.startCharacter = (max 0 (p.column - 1)).toNat ∧
    ((max 0 (p.column - 1)).toNat <
        (d.lineAt (min ((max 0 (p.line - 1)).toNat) (d.lineCount - 1))).length →
      (max 0 (p.column - 1)).toNat + 1 ≤ (problemToDiagnostic p d).range.endCharacter) ∧
    ((max 0 (p.column - 1)).toNat <
        (d.lineAt (min ((max 0 (p.line - 1)).toNat) (d.lineCount - 1))).length →
      (∀ ch ∈ (d.lineAt (min ((max 0 (p.line - 1)).toNat) (d.lineCount - 1))).drop
          ((max 0 (p.column - 1)).toNat), isJsSpace ch = true) →
      (problemToDiagnostic p d).range.endCharacter = (max 0 (p.column - 1)).toNat + 1) ∧
    ((d.lineAt (min ((max 0 (p.line - 1)).toNat) (d.lineCount - 1))).length ≤
        (max 0 (p.column - 1)).toNat →
      (problemToDiagnostic p d).range.endCharacter =
        (d.lineAt (min ((max 0 (p.line - 1)).toNat) (d.lineCount - 1))).length) := by
  refine ⟨rfl, ?_, ?_, ?_⟩
  · intro h
    exact extendToWordEnd_ge _ _ h
  · intro h hw
    exact extendToWordEnd_all_space _ _ h hw
  · intro h
    exact extendToWordEnd_past_end _ _ h

/-- C1 amended, witnessed at a document with the single line "ab" and a
problem at line 1, column 1: the emitted range is at least one character
wide. -/
theorem problemToDiagnostic_min_width_witness :
    (0 : Nat) <
      ((TextDocument.mk "u" "/u" [['a', 'b']]).lineAt
        (min ((max 0 ((1 : Int) - 1)).toNat)
          ((TextDocument.mk "u" "/u" [['a', 'b']]).lineCount - 1))).length ∧
    (max 0 ((1 : Int) - 1)).toNat + 1 ≤
      (problemToDiagnostic ⟨1, 1, "m", "error", none⟩
        (TextDocument.mk "u" "/u" [['a', 'b']])).range.endCharacter := by
  refine ⟨by decide, ?_⟩
  exact (problemToDiagnostic_min_width ⟨1, 1, "m", "error", none⟩
    (TextDocument.mk "u" "/u" [['a', 'b']])).2.1 (by decide)

/-- C8: problemToDiagnostic starts the range at the 0-based position
(max 0 (line-1), max 0 (column-1)) — in particular a problem at line 1,
column 1 starts at (0,0) — maps exactly the level "error" to error severity
and every other level to warning severity, and copies the rule id into the
diagnostic code only when the problem carries one. -/
theorem problemToDiagnostic_position_severity_code (p : LintProblem) (d : TextDocument) :
    (problemToDiagnostic p d).range.startLine = (max 0 (p.line - 1)).toNat ∧
    (problemToDiagnostic p d).range.startCharacter = (max 0 (p.column - 1)).toNat ∧
    (p.line = 1 → p.column = 1 →
      (problemToDiagnostic p d).range.startLine = 0 ∧
      (problemToDiagnostic p d).range.startCharacter = 0) ∧
    ((problemToDiagnostic p d).severity = DiagnosticSeverity.Error ↔ p.level = "error") ∧
    (∀ r, (problemToDiagnostic p d).code = some r → p.rule = some r) := by
  refine ⟨rfl, rfl, ?_, ?_, ?_⟩
  · intro h1 hc1
    constructor
    · show (max 0 (p.line - 1)).toNat = 0
      rw [h1]
      rfl
    · show (max 0 (p.column - 1)).toNat = 0
      rw [hc1]
      rfl
  · show (if p.level = "error" then DiagnosticSeverity.Error
          else DiagnosticSeverity.Warning) = DiagnosticSeverity.Error ↔ p.level = "error"
    by_cases h : p.level = "error" <;> simp [h]
  · intro r
    show (match p.rule with
          | some rule => if rule = "" then none else some rule
          | none => none) = some r → p.rule = some r
    cases hr : p.rule with
    | none =>
      intro h
      exact absurd h (by simp)
    | some rule =>
      intro h
      have h' : (if rule = "" then none else some rule) = some r := h
      by_cases he : rule = ""
      · rw [if_pos he] at h'
        exact absurd h' (by simp)
      · rw [if_neg he] at h'
        exact h'

/-- C8 witness: a problem at line 1, column 1 with level "error" and rule
"anchors" on a one-line document maps to a diagnostic starting at (0,0) with
error severity. -/
theorem problemToDiagnostic_position_severity_code_witness :
    (problemToDiagnostic ⟨1, 1, "m", "error", some "anchors"⟩
        (TextDocument.mk "u" "/u" [['a']])).range.startLine = 0 ∧
    (problemToDiagnostic ⟨1, 1, "m", "error", some "anchors"⟩
        (TextDocument.mk "u" "/u" [['a']])).range.startCharacter = 0 ∧
    (problemToDiagnostic ⟨1, 1, "m", "error", some "anchors"⟩
        (TextDocument.mk "u" "/u" [['a']])).severity = DiagnosticSeverity.Error := by
  have h := problemToDiagnostic_position_severity_code ⟨1, 1, "m", "error", some "anchors"⟩
    (TextDocument.mk "u" "/u" [['a']])
  exact ⟨(h.2.2.1 rfl rfl).1, (h.2.2.1 rfl rfl).2, h.2.2.2.1.mpr rfl⟩

/-- C10: the line whose text is scanned is the one at index
min(line, lineCount-1), which is always in bounds for a (necessarily
nonempty) document, so the mapping never fails; the emitted range keeps the
unclamped line index, so a problem whose line exceeds the document yields a
range beyond the last line whose end column is computed from the text of the
last line. -/
theorem problemToDiagnostic_line_clamp (p : LintProblem) (d : TextDocument)
    (h : d.lines ≠ []) :
    min ((max 0 (p.line - 1)).toNat) (d.lineCount - 1) < d.lineCount ∧
    (d.lines.get? (min ((max 0 (p.line - 1)).toNat) (d.lineCount - 1))).isSome ∧
    (problemToDiagnostic p d).range.startLine = (max 0 (p.line - 1)).toNat ∧
    (problemToDiagnostic p d).range.endLine = (max 0 (p.line - 1)).toNat ∧
    (d.lineCount ≤ (max 0 (p.line - 1)).toNat →
      d.lineCount - 1 < (problemToDiagnostic p d).range.startLine ∧
      (problemToDiagnostic p d).range.endCharacter =
        extendToWordEnd (d.lineAt (d.lineCount - 1)) ((max 0 (p.column - 1)).toNat)) := by
  have hpos : 0 < d.lineCount := List.length_pos.mpr h
  have hlt : min ((max 0 (p.line - 1)).toNat) (d.lineCount - 1) < d.lineCount := by
    have := Nat.min_le_right ((max 0 (p.line - 1)).toNat) (d.lineCount - 1)
    omega
  refine ⟨hlt, ?_, rfl, rfl, ?_⟩
  · rw [List.get?_eq_get hlt]
    rfl
  · intro hout
    constructor
    · show d.lineCount - 1 < (max 0 (p.line - 1)).toNat
      omega
    · show extendToWordEnd
          (d.lineAt (min ((max 0 (p.line - 1)).toNat) (d.lineCount - 1)))
          ((max 0 (p.column - 1)).toNat) =
        extendToWordEnd (d.lineAt (d.lineCount - 1)) ((max 0 (p.column - 1)).toNat)
      have hmin : min ((max 0 (p.line - 1)).toNat) (d.lineCount - 1) = d.lineCount - 1 := by
        omega
      rw [hmin]

/-- C10 witness: a problem reported at line 5 of a one-line document is mapped
without failure, with the scanned index clamped in bounds and the emitted
range on the out-of-range line 4. -/
theorem problemToDiagnostic_line_clamp_witness :
    min ((max 0 ((5 : Int) - 1)).toNat)
        ((TextDocument.mk "u" "/u" [['a']]).lineCount - 1) <
      (TextDocument.mk "u" "/u" [['a']]).lineCount ∧
    (problemToDiagnostic ⟨5, 1, "m", "warning", none⟩
        (TextDocument.mk "u" "/u" [['a']])).range.startLine = (max 0 ((5 : Int) - 1)).toNat := by
  have h := problemToDiagnostic_line_clamp ⟨5, 1, "m", "warning", none⟩
    (TextDocument.mk "u" "/u" [['a']]) (by simp)
  exact ⟨h.1, h.2.2.1⟩

/-- Map.set returns the stored value at the written key. -/
theorem mapSet_self {α : Type} (m : String → Option α) (k : String) (v : α) :
    mapSet m k v k = some v := by
  simp [mapSet]

/-- Map.set leaves every other key unchanged. -/
theorem mapSet_other {α : Type} (m : String → Option α) (k x : String) (v : α)
    (h : x ≠ k) : mapSet m k v x = m x := by
  simp [mapSet, h]

/-- The cache lookup depends only on the cached value at the key. -/
theorem cacheHit_congr {m m' : String → Option (Option YamlLintConfig)} {k : String}
    (h : m k = m' k) : cacheHit m k = cacheHit m' k := by
  unfold cacheHit
  rw [h]

/-- A cache hit inverts to the stored entry. -/
theorem cacheHit_some {m : String → Option (Option YamlLintConfig)} {k : String}
    {c : YamlLintConfig} (h : cacheHit m k = some c) : m k = some (some c) := by
  unfold cacheHit at h
  cases hv : m k with
  | none =>
    rw [hv] at h
    exact absurd h (by simp)
  | some v =>
    cases v with
    | none =>
      rw [hv] at h
      exact absurd h (by simp)
    | some c2 =>
      rw [hv] at h
      simp at h
      rw [h]

/-- Equality of every provider state field other than the config cache and the
config allocation counter. -/
def SameNonConfigFields (st st' : ProviderState) : Prop :=
  st'.pendingTimers = st.pendingTimers ∧
  st'.debounceTimers = st.debounceTimers ∧
  st'.nextTimerId = st.nextTimerId ∧
  st'.diagnostics = st.diagnostics ∧
  st'.debounceTime = st.debounceTime

/-- A successful workspace candidate search changes the cache only by storing
the returned (successfully parsed) configuration, repeats itself verbatim on
the state it returns, and touches no other state field. -/
theorem searchWorkspaceConfig_some_spec (env : Env) (ws : String) :
    ∀ (names : List String) (st : ProviderState) (c : YamlLintConfig) (st' : ProviderState),
      searchWorkspaceConfig env ws names st = some (c, st') →
      (∀ k, st'.configCache k = st.configCache k ∨
            (st'.configCache k = some (some c) ∧ env.parseOk k = true)) ∧
      searchWorkspaceConfig env ws names st' = some (c, st') ∧
      SameNonConfigFields st st' := by
  intro names
  induction names with
  | nil =>
    intro st c st' h
    simp [searchWorkspaceConfig] at h
  | cons configName rest ih =>
    intro st c st' h
    simp only [searchWorkspaceConfig] at h
    cases hhit : cacheHit st.configCache (pathJoin ws configName) with
    | some cached =>
      rw [hhit] at h
      simp at h
      obtain ⟨hc, hst⟩ := h
      subst hc
      subst hst
      refine ⟨fun k => Or.inl rfl, ?_, rfl, rfl, rfl, rfl, rfl⟩
      simp only [searchWorkspaceConfig, hhit]
    | none =>
      rw [hhit] at h
      by_cases hload : (env.fileExists (pathJoin ws configName) &&
          env.parseOk (pathJoin ws configName)) = true
      · rw [if_pos hload] at h
        simp at h
        obtain ⟨hc, hst⟩ := h
        subst hc
        subst hst
        have hparse : env.parseOk (pathJoin ws configName) = true :=
          (Bool.and_eq_true _ _ |>.mp hload).2
        refine ⟨?_, ?_, rfl, rfl, rfl, rfl, rfl⟩
        · intro k
          by_cases hk : k = pathJoin ws configName
          · subst hk
            exact Or.inr ⟨mapSet_self _ _ _, hparse⟩
          · exact Or.inl (mapSet_other _ _ _ _ hk)
        · have hh : cacheHit
              (mapSet st.configCache (pathJoin ws configName)
                (some ⟨st.nextObjId, ConfigSource.fromFile (pathJoin ws configName)⟩))
              (pathJoin ws configName) =
              some ⟨st.nextObjId, ConfigSource.fromFile (pathJoin ws configName)⟩ := by
            unfold cacheHit
            rw [mapSet_self]
          simp only [searchWorkspaceConfig, hh]
      · rw [if_neg hload] at h
        obtain ⟨hdelta, hagain, hfields⟩ := ih st c st' h
        refine ⟨hdelta, ?_, hfields⟩
        rcases hdelta (pathJoin ws configName) with heq | ⟨heq, _⟩
        · simp only [searchWorkspaceConfig, cacheHit_congr heq, hhit, if_neg hload]
          exact hagain
        · have hh : cacheHit st'.configCache (pathJoin ws configName) = some c := by
            unfold cacheHit
            rw [heq]
          simp only [searchWorkspaceConfig, hh]

/-- A failed workspace candidate search stays failed, or hits a given config,
on any state whose cache agrees with the original on the candidate paths up to
entries holding that config. -/
theorem searchWorkspaceConfig_none_spec (env : Env) (ws : String) :
    ∀ (names : List String) (st st'' : ProviderState) (c : YamlLintConfig),
      searchWorkspaceConfig env ws names st = none →
      (∀ n ∈ names,
        st''.configCache (pathJoin ws n) = st.configCache (pathJoin ws n) ∨
        st''.configCache (pathJoin ws n) = some (some c)) →
      searchWorkspaceConfig env ws names st'' = none ∨
      searchWorkspaceConfig env ws names st'' = some (c, st'') := by
  intro names
  induction names with
  | nil =>
    intro st st'' c h hext
    left
    simp [searchWorkspaceConfig]
  | cons configName rest ih =>
    intro st st'' c h hext
    simp only [searchWorkspaceConfig] at h
    cases hhit : cacheHit st.configCache (pathJoin ws configName) with
    | some cached =>
      rw [hhit] at h
      simp at h
    | none =>
      rw [hhit] at h
      by_cases hload : (env.fileExists (pathJoin ws configName) &&
          env.parseOk (pathJoin ws configName)) = true
      · rw [if_pos hload] at h
        simp at h
      · rw [if_neg hload] at h
        rcases hext configName (List.mem_cons_self _ _) with heq | heq
        · have hrec := ih st st'' c h (fun n hn => hext n (List.mem_cons_of_mem _ hn))
          rcases hrec with hrec | hrec
          · left
            simp only [searchWorkspaceConfig, cacheHit_congr heq, hhit, if_neg hload]
            exact hrec
          · right
            simp only [searchWorkspaceConfig, cacheHit_congr heq, hhit, if_neg hload]
            exact hrec
        · have hh : cacheHit st''.configCache (pathJoin ws configName) = some c := by
            unfold cacheHit
            rw [heq]
          right
          simp only [searchWorkspaceConfig, hh]

/-- The default fallback caches the returned default under the sentinel key,
changes no other cache entry, repeats itself verbatim on the state it
returns, and touches no other state field. -/
theorem useDefaultConfig_spec (st : ProviderState) :
    (∀ k, (useDefaultConfig st).2.configCache k = st.configCache k ∨
          ((useDefaultConfig st).2.configCache k = some (some (useDefaultConfig st).1) ∧
           k = defaultKey)) ∧
    (useDefaultConfig st).2.configCache defaultKey = some (some (useDefaultConfig st).1) ∧
    useDefaultConfig (useDefaultConfig st).2 =
      ((useDefaultConfig st).1, (useDefaultConfig st).2) ∧
    SameNonConfigFields st (useDefaultConfig st).2 := by
  cases hhit : cacheHit st.configCache defaultKey with
  | some cached =>
    have heq : useDefaultConfig st = (cached, st) := by
      simp only [useDefaultConfig, hhit]
    rw [heq]
    refine ⟨fun k => Or.inl rfl, ?_, heq, rfl, rfl, rfl, rfl, rfl⟩
    exact cacheHit_some hhit
  | none =>
    have heq : useDefaultConfig st =
        (⟨st.nextObjId, ConfigSource.fromString DEFAULT_CONFIG⟩,
         { st with
           configCache := mapSet st.configCache defaultKey
             (some ⟨st.nextObjId, ConfigSource.fromString DEFAULT_CONFIG⟩),
           nextObjId := st.nextObjId + 1 }) := by
      simp only [useDefaultConfig, hhit]
    rw [heq]
    refine ⟨?_, by simp [mapSet], ?_, rfl, rfl, rfl, rfl, rfl⟩
    · intro k
      by_cases hk : k = defaultKey
      · subst hk
        exact Or.inr ⟨by simp [mapSet], rfl⟩
      · exact Or.inl (mapSet_other _ _ _ _ hk)
    · have hh : cacheHit
          (mapSet st.configCache defaultKey
            (some ⟨st.nextObjId, ConfigSource.fromString DEFAULT_CONFIG⟩)) defaultKey =
          some ⟨st.nextObjId, ConfigSource.fromString DEFAULT_CONFIG⟩ := by
        unfold cacheHit
        rw [mapSet_self]
      simp only [useDefaultConfig, hh]

/-- The workspace search plus default fallback changes the cache only by
storing the returned configuration (under a successfully parsed path or the
sentinel key), repeats itself verbatim on the state it returns, and touches
no other state field. -/
theorem searchOrDefault_spec (env : Env) (st : ProviderState) :
    (∀ k, (searchOrDefault env st).2.configCache k = st.configCache k ∨
          ((searchOrDefault env st).2.configCache k = some (some (searchOrDefault env st).1) ∧
           (env.parseOk k = true ∨ k = defaultKey))) ∧
    searchOrDefault env (searchOrDefault env st).2 =
      ((searchOrDefault env st).1, (searchOrDefault env st).2) ∧
    SameNonConfigFields st (searchOrDefault env st).2 := by
  cases hws : env.workspacePath with
  | none =>
    have heq : searchOrDefault env st = useDefaultConfig st := by
      simp only [searchOrDefault, hws]
    obtain ⟨hdelta, hdef, hidem, hfields⟩ := useDefaultConfig_spec st
    rw [heq]
    refine ⟨?_, ?_, hfields⟩
    · intro k
      rcases hdelta k with h | ⟨h1, h2⟩
      · exact Or.inl h
      · exact Or.inr ⟨h1, Or.inr h2⟩
    · have heq2 : searchOrDefault env (useDefaultConfig st).2 =
          useDefaultConfig (useDefaultConfig st).2 := by
        simp only [searchOrDefault, hws]
      rw [heq2, hidem]
  | some ws =>
    cases hs : searchWorkspaceConfig env ws CONFIG_FILE_NAMES st with
    | some result =>
      obtain ⟨c, st'⟩ := result
      obtain ⟨hdelta, hagain, hfields⟩ :=
        searchWorkspaceConfig_some_spec env ws CONFIG_FILE_NAMES st c st' hs
      have heq : searchOrDefault env st = (c, st') := by
        simp only [searchOrDefault, hws, hs]
      rw [heq]
      refine ⟨?_, ?_, hfields⟩
      · intro k
        rcases hdelta k with h | ⟨h1, h2⟩
        · exact Or.inl h
        · exact Or.inr ⟨h1, Or.inl h2⟩
      · simp only [searchOrDefault, hws, hagain]
    | none =>
      have heq : searchOrDefault env st = useDefaultConfig st := by
        simp only [searchOrDefault, hws, hs]
      obtain ⟨hdelta, hdef, hidem, hfields⟩ := useDefaultConfig_spec st
      rw [heq]
      refine ⟨?_, ?_, hfields⟩
      · intro k
        rcases hdelta k with h | ⟨h1, h2⟩
        · exact Or.inl h
        · exact Or.inr ⟨h1, Or.inr h2⟩
      · have hext : ∀ n ∈ CONFIG_FILE_NAMES,
            (useDefaultConfig st).2.configCache (pathJoin ws n) =
              st.configCache (pathJoin ws n) ∨
            (useDefaultConfig st).2.configCache (pathJoin ws n) =
              some (some (useDefaultConfig st).1) := by
          intro n _
          rcases hdelta (pathJoin ws n) with h | ⟨h1, _⟩
          · exact Or.inl h
          · exact Or.inr h1
        rcases searchWorkspaceConfig_none_spec env ws CONFIG_FILE_NAMES st
            (useDefaultConfig st).2 (useDefaultConfig st).1 hs hext with hres | hres
        · have heq2 : searchOrDefault env (useDefaultConfig st).2 =
              useDefaultConfig (useDefaultConfig st).2 := by
            simp only [searchOrDefault, hws, hres]
          rw [heq2, hidem]
        · simp only [searchOrDefault, hws, hres]

/-- Config resolution changes the cache only by storing the returned
configuration (under a successfully parsed path or the sentinel key), repeats
itself verbatim on the state it returns, and touches no other state field. -/
theorem getYamlLintConfig_spec (env : Env) (st : ProviderState) :
    (∀ k, (getYamlLintConfig env st).2.configCache k = st.configCache k ∨
          ((getYamlLintConfig env st).2.configCache k =
             some (some (getYamlLintConfig env st).1) ∧
           (env.parseOk k = true ∨ k = defaultKey))) ∧
    getYamlLintConfig env (getYamlLintConfig env st).2 =
      ((getYamlLintConfig env st).1, (getYamlLintConfig env st).2) ∧
    SameNonConfigFields st (getYamlLintConfig env st).2 := by
  by_cases hu : env.userConfigPath = ""
  · have heq : getYamlLintConfig env st = searchOrDefault env st := by
      simp only [getYamlLintConfig, if_pos hu]
    obtain ⟨hdelta, hidem, hfields⟩ := searchOrDefault_spec env st
    rw [heq]
    refine ⟨hdelta, ?_, hfields⟩
    have heq2 : getYamlLintConfig env (searchOrDefault env st).2 =
        searchOrDefault env (searchOrDefault env st).2 := by
      simp only [getYamlLintConfig, if_pos hu]
    rw [heq2, hidem]
  · cases hhit : cacheHit st.configCache (resolvedUserPath env) with
    | some cached =>
      have heq : getYamlLintConfig env st = (cached, st) := by
        simp only [getYamlLintConfig, if_neg hu, hhit]
      rw [heq]
      refine ⟨fun k => Or.inl rfl, ?_, rfl, rfl, rfl, rfl, rfl⟩
      simp only [getYamlLintConfig, if_neg hu, hhit]
    | none =>
      by_cases hp : env.parseOk (resolvedUserPath env) = true
      · have heq : getYamlLintConfig env st =
            (⟨st.nextObjId, ConfigSource.fromFile (resolvedUserPath env)⟩,
             { st with
               configCache := mapSet st.configCache (resolvedUserPath env)
                 (some ⟨st.nextObjId, ConfigSource.fromFile (resolvedUserPath env)⟩),
               nextObjId := st.nextObjId + 1 }) := by
          simp only [getYamlLintConfig, if_neg hu, hhit, if_pos hp]
        rw [heq]
        refine ⟨?_, ?_, rfl, rfl, rfl, rfl, rfl⟩
        · intro k
          by_cases hk : k = resolvedUserPath env
          · subst hk
            exact Or.inr ⟨mapSet_self _ _ _, Or.inl hp⟩
          · exact Or.inl (mapSet_other _ _ _ _ hk)
        · have hh : cacheHit
              (mapSet st.configCache (resolvedUserPath env)
                (some ⟨st.nextObjId, ConfigSource.fromFile (resolvedUserPath env)⟩))
              (resolvedUserPath env) =
              some ⟨st.nextObjId, ConfigSource.fromFile (resolvedUserPath env)⟩ := by
            unfold cacheHit
            rw [mapSet_self]
          simp only [getYamlLintConfig, if_neg hu, hh]
      · have heq : getYamlLintConfig env st = searchOrDefault env st := by
          simp only [getYamlLintConfig, if_neg hu, hhit, if_neg hp]
        obtain ⟨hdelta, hidem, hfields⟩ := searchOrDefault_spec env st
        rw [heq]
        refine ⟨hdelta, ?_, hfields⟩
        rcases hdelta (resolvedUserPath env) with hagree | ⟨hset, _⟩
        · have hh : cacheHit (searchOrDefault env st).2.configCache (resolvedUserPath env) =
              none := by
            rw [cacheHit_congr hagree]
            exact hhit
          have heq2 : getYamlLintConfig env (searchOrDefault env st).2 =
              searchOrDefault env (searchOrDefault env st).2 := by
            simp only [getYamlLintConfig, if_neg hu, hh, if_neg hp]
          rw [heq2, hidem]
        · have hh : cacheHit (searchOrDefault env st).2.configCache (resolvedUserPath env) =
              some (searchOrDefault env st).1 := by
            unfold cacheHit
            rw [hset]
          simp only [getYamlLintConfig, if_neg hu, hh]

/-- On an empty cache, a workspace candidate search fails exactly when no
candidate both exists and parses. -/
theorem searchWorkspaceConfig_empty_none (env : Env) (ws : String) :
    ∀ (names : List String) (st : ProviderState),
      (∀ k, st.configCache k = none) →
      names.find? (fun n => env.fileExists (pathJoin ws n) && env.parseOk (pathJoin ws n)) =
        none →
      searchWorkspaceConfig env ws names st = none := by
  intro names
  induction names with
  | nil =>
    intro st hempty hfind
    simp [searchWorkspaceConfig]
  | cons configName rest ih =>
    intro st hempty hfind
    rw [List.find?_cons] at hfind
    by_cases hpred : (env.fileExists (pathJoin ws configName) &&
        env.parseOk (pathJoin ws configName)) = true
    · rw [hpred] at hfind
      exact absurd hfind (by simp)
    · rw [Bool.eq_false_iff.mpr hpred] at hfind
      have hhit : cacheHit st.configCache (pathJoin ws configName) = none := by
        unfold cacheHit
        rw [hempty]
      simp only [searchWorkspaceConfig, hhit, if_neg hpred]
      exact ih st hempty hfind

/-- On an empty cache, a successful workspace candidate search returns a
configuration loaded from the first candidate that exists and parses. -/
theorem searchWorkspaceConfig_empty_some (env : Env) (ws : String) :
    ∀ (names : List String) (st : ProviderState) (n : String),
      (∀ k, st.configCache k = none) →
      names.find? (fun n => env.fileExists (pathJoin ws n) && env.parseOk (pathJoin ws n)) =
        some n →
      (searchWorkspaceConfig env ws names st).map (fun r => r.1.source) =
        some (ConfigSource.fromFile (pathJoin ws n)) := by
  intro names
  induction names with
  | nil =>
    intro st n hempty hfind
    exact absurd hfind (by simp)
  | cons configName rest ih =>
    intro st n hempty hfind
    rw [List.find?_cons] at hfind
    have hhit : cacheHit st.configCache (pathJoin ws configName) = none := by
      unfold cacheHit
      rw [hempty]
    by_cases hpred : (env.fileExists (pathJoin ws configName) &&
        env.parseOk (pathJoin ws configName)) = true
    · rw [hpred] at hfind
      simp at hfind
      subst hfind
      simp only [searchWorkspaceConfig, hhit, if_pos hpred, Option.map_some]
      rfl
    · rw [Bool.eq_false_iff.mpr hpred] at hfind
      simp only [searchWorkspaceConfig, hhit, if_neg hpred]
      exact ih st n hempty hfind

/-- On an empty cache, the workspace search plus default fallback returns a
configuration whose source is the first existing and parsable candidate, or
the built-in default text. -/
theorem searchOrDefault_empty_source (env : Env) (st : ProviderState)
    (hempty : ∀ k, st.configCache k = none) :
    ((searchOrDefault env st).1).source =
      (match env.workspacePath with
       | some ws =>
         (match CONFIG_FILE_NAMES.find?
             (fun n => env.fileExists (pathJoin ws n) && env.parseOk (pathJoin ws n)) with
          | some n => ConfigSource.fromFile (pathJoin ws n)
          | none => ConfigSource.fromString DEFAULT_CONFIG)
       | none => ConfigSource.fromString DEFAULT_CONFIG) := by
  have hhitdef : cacheHit st.configCache defaultKey = none := by
    unfold cacheHit
    rw [hempty]
  cases hws : env.workspacePath with
  | none =>
    simp [searchOrDefault, hws, useDefaultConfig, hhitdef]
  | some ws =>
    cases hfind : CONFIG_FILE_NAMES.find?
        (fun n => env.fileExists (pathJoin ws n) && env.parseOk (pathJoin ws n)) with
    | none =>
      have hs := searchWorkspaceConfig_empty_none env ws CONFIG_FILE_NAMES st hempty hfind
      simp [searchOrDefault, hws, hs, useDefaultConfig, hhitdef, hfind]
    | some n =>
      have hmap := searchWorkspaceConfig_empty_some env ws CONFIG_FILE_NAMES st n hempty hfind
      cases hs : searchWorkspaceConfig env ws CONFIG_FILE_NAMES st with
      | none =>
        rw [hs] at hmap
        exact absurd hmap (by simp)
      | some r =>
        rw [hs] at hmap
        simp at hmap
        simp [searchOrDefault, hws, hs, hmap, hfind]

/-- C3: on a fresh cache, config resolution follows the fixed priority with
first success winning: the non-empty user-specified path (resolved against the
workspace root) when it loads, else the first of the four fixed candidate
files in the workspace root that exists and parses, else the built-in default;
resolution always returns a configuration. -/
theorem getYamlLintConfig_follows_priority (env : Env) (st : ProviderState)
    (hempty : ∀ k, st.configCache k = none) :
    ((getYamlLintConfig env st).1).source = specResolveSource env := by
  by_cases hu : env.userConfigPath = ""
  · have hcond : ¬(env.userConfigPath ≠ "" ∧ env.parseOk (resolvedUserPath env) = true) :=
      fun hc => hc.1 hu
    have heq : getYamlLintConfig env st = searchOrDefault env st := by
      simp only [getYamlLintConfig, if_pos hu]
    rw [heq, searchOrDefault_empty_source env st hempty]
    simp only [specResolveSource, if_neg hcond]
  · have hhit : cacheHit st.configCache (resolvedUserPath env) = none := by
      unfold cacheHit
      rw [hempty]
    by_cases hp : env.parseOk (resolvedUserPath env) = true
    · have hcond : env.userConfigPath ≠ "" ∧ env.parseOk (resolvedUserPath env) = true :=
        ⟨hu, hp⟩
      simp only [getYamlLintConfig, if_neg hu, hhit, if_pos hp,
        specResolveSource, if_pos hcond]
    · have hcond : ¬(env.userConfigPath ≠ "" ∧ env.parseOk (resolvedUserPath env) = true) :=
        fun hc => hp hc.2
      have heq : getYamlLintConfig env st = searchOrDefault env st := by
        simp only [getYamlLintConfig, if_neg hu, hhit, if_neg hp]
      rw [heq, searchOrDefault_empty_source env st hempty]
      simp only [specResolveSource, if_neg hcond]

/-- A provider state with empty stores, as after construction. -/
def emptyState : ProviderState :=
  { diagnostics := fun _ => none
    debounceTimers := fun _ => none
    configCache := fun _ => none
    debounceTime := 300
    nextObjId := 0
    pendingTimers := []
    nextTimerId := 0 }

/-- An environment with no user config path and a workspace containing only a
parsable .yamllint.yml. -/
def envPriority : Env :=
  { enable := true
    userConfigPath := ""
    debounceTimeSetting := 300
    workspacePath := some "/ws"
    fileExists := fun p => p == "/ws/.yamllint.yml"
    parseOk := fun p => p == "/ws/.yamllint.yml"
    runAll := fun _ _ _ => Except.ok [] }

/-- C3 witness: in a workspace whose only config file is .yamllint.yml, the
resolved configuration comes from that file, matching the spec-side
resolution. -/
theorem getYamlLintConfig_follows_priority_witness :
    ((getYamlLintConfig envPriority emptyState).1).source = specResolveSource envPriority ∧
    specResolveSource envPriority = ConfigSource.fromFile "/ws/.yamllint.yml" :=
  ⟨getYamlLintConfig_follows_priority envPriority emptyState (fun _ => rfl), by decide⟩

/-- C5: a second resolution for the same document and workspace without an
intervening settings change returns the identical (same allocation) cached
configuration object; the built-in default is cached under the sentinel key
so later default resolutions reuse the same object; updateConfiguration
clears the entire cache. -/
theorem getYamlLintConfig_cached_identity (env : Env) (st : ProviderState) :
    (getYamlLintConfig env (getYamlLintConfig env st).2).1 = (getYamlLintConfig env st).1 ∧
    (useDefaultConfig st).2.configCache defaultKey = some (some (useDefaultConfig st).1) ∧
    (∀ k, (updateConfiguration env st).configCache k = none) := by
  refine ⟨?_, (useDefaultConfig_spec st).2.1, fun _ => rfl⟩
  rw [(getYamlLintConfig_spec env st).2.1]

/-- C9: a failed config load is never recorded in the cache: every cache entry
changed by a resolution holds the successfully produced configuration that the
resolution returned, stored under a key that parsed successfully or under the
default sentinel key; the entry of every failing key is left unchanged, so a
later resolution re-attempts the load. -/
theorem getYamlLintConfig_no_negative_caching (env : Env) (st : ProviderState)
    (k : String) :
    (getYamlLintConfig env st).2.configCache k = st.configCache k ∨
    ((getYamlLintConfig env st).2.configCache k =
       some (some (getYamlLintConfig env st).1) ∧
     (env.parseOk k = true ∨ k = defaultKey)) :=
  (getYamlLintConfig_spec env st).1 k

/-- A successful lint publishes exactly the mapped problems for the document,
replacing whatever was stored. -/
theorem lint_ok_replaces (env : Env) (st : ProviderState) (d : TextDocument)
    (ps : List LintProblem) (hen : env.enable = true)
    (hrun : ∀ cfg, env.runAll d.getText cfg d.fsPath = Except.ok ps) :
    (lint env st d).diagnostics d.uri =
      some (ps.map (fun p => problemToDiagnostic p d)) := by
  simp [lint, hen, hrun, mapSet]

/-- C4: when linting is enabled and the engine call throws, lint does not
propagate the failure: it publishes for the document exactly one synthetic
diagnostic with error severity, at the very first character of the document,
whose message carries the failure text. -/
theorem lint_engine_failure_single_diagnostic (env : Env) (st : ProviderState)
    (d : TextDocument) (msg : String) (hen : env.enable = true)
    (herr : ∀ cfg, env.runAll d.getText cfg d.fsPath = Except.error msg) :
    (lint env st d).diagnostics d.uri =
      some [{ range := ⟨0, 0, 0, 0⟩
              message := "yamllint error: " ++ msg
              severity := DiagnosticSeverity.Error
              source := some "yamllint"
              code := none }] := by
  simp [lint, hen, herr, mapSet]

/-- An environment whose engine always throws. -/
def envEngineFails : Env :=
  { enable := true
    userConfigPath := ""
    debounceTimeSetting := 300
    workspacePath := none
    fileExists := fun _ => false
    parseOk := fun _ => false
    runAll := fun _ _ _ => Except.error "boom" }

/-- A small concrete document. -/
def docA : TextDocument := ⟨"file:///a.yaml", "/a.yaml", [['a']]⟩

/-- C4 witness: with an engine that throws, lint publishes the single
synthetic error diagnostic for the document. -/
theorem lint_engine_failure_single_diagnostic_witness :
    (lint envEngineFails emptyState docA).diagnostics docA.uri =
      some [{ range := ⟨0, 0, 0, 0⟩
              message := "yamllint error: " ++ "boom"
              severity := DiagnosticSeverity.Error
              source := some "yamllint"
              code := none }] :=
  lint_engine_failure_single_diagnostic envEngineFails emptyState docA "boom" rfl
    (fun _ => rfl)

/-- C6: with linting disabled, lint clears the diagnostics and the pending
debounce timer of the document (it equals the clear operation), publishes
nothing, and neither resolves a configuration nor touches the config cache or
the configuration allocation counter. -/
theorem lint_disabled_clears (env : Env) (st : ProviderState) (d : TextDocument)
    (hd : env.enable = false) :
    lint env st d = clear st d ∧
    (lint env st d).diagnostics d.uri = none ∧
    (lint env st d).configCache = st.configCache ∧
    (lint env st d).nextObjId = st.nextObjId := by
  have h1 : lint env st d = clear st d := by
    simp [lint, hd]
  refine ⟨h1, ?_, ?_, ?_⟩
  · rw [h1]
    simp only [clear]
    split <;> simp [mapDelete]
  · rw [h1]
    simp only [clear]
    split <;> rfl
  · rw [h1]
    simp only [clear]
    split <;> rfl

/-- An environment with linting disabled. -/
def envDisabled : Env :=
  { enable := false
    userConfigPath := ""
    debounceTimeSetting := 300
    workspacePath := none
    fileExists := fun _ => false
    parseOk := fun _ => false
    runAll := fun _ _ _ => Except.ok [⟨1, 1, "m", "error", none⟩] }

/-- C6 witness: with linting disabled, lint on a state that holds a published
diagnostic for the document removes it and equals clear. -/
theorem lint_disabled_clears_witness :
    lint envDisabled emptyState docA = clear emptyState docA ∧
    (lint envDisabled emptyState docA).diagnostics docA.uri = none :=
  ⟨(lint_disabled_clears envDisabled emptyState docA rfl).1,
   (lint_disabled_clears envDisabled emptyState docA rfl).2.1⟩

/-- C7: each successful lint pass replaces the published diagnostic set of the
document in its entirety: after two lint passes, the store holds exactly the
diagnostics mapped from the problems of the second pass, with no residue from
the first. -/
theorem lint_full_replace (env1 env2 : Env) (st : ProviderState) (d : TextDocument)
    (ps2 : List LintProblem) (hen : env2.enable = true)
    (hrun : ∀ cfg, env2.runAll d.getText cfg d.fsPath = Except.ok ps2) :
    (lint env2 (lint env1 st d) d).diagnostics d.uri =
      some (ps2.map (fun p => problemToDiagnostic p d)) :=
  lint_ok_replaces env2 (lint env1 st d) d ps2 hen hrun

/-- An environment whose engine reports two problems. -/
def envTwoProblems : Env :=
  { enable := true
    userConfigPath := ""
    debounceTimeSetting := 300
    workspacePath := none
    fileExists := fun _ => false
    parseOk := fun _ => false
    runAll := fun _ _ _ =>
      Except.ok [⟨1, 1, "m1", "error", none⟩, ⟨1, 1, "m2", "warning", none⟩] }

/-- An environment whose engine reports one problem. -/
def envOneProblem : Env :=
  { enable := true
    userConfigPath := ""
    debounceTimeSetting := 300
    workspacePath := none
    fileExists := fun _ => false
    parseOk := fun _ => false
    runAll := fun _ _ _ => Except.ok [⟨1, 1, "m1", "error", none⟩] }

/-- C7 witness: linting with a two-problem engine and then with a one-problem
engine leaves exactly the one mapped diagnostic of the second pass. -/
theorem lint_full_replace_witness :
    (lint envOneProblem (lint envTwoProblems emptyState docA) docA).diagnostics docA.uri =
      some ([⟨1, 1, "m1", "error", none⟩].map (fun p => problemToDiagnostic p docA)) :=
  lint_full_replace envTwoProblems envOneProblem emptyState docA
    [⟨1, 1, "m1", "error", none⟩] rfl (fun _ => rfl)

/-- Membership in the pending timers of a uri. -/
theorem mem_pendingFor {st : ProviderState} {t : PendingTimer} {u : String} :
    t ∈ pendingFor st u ↔ t ∈ st.pendingTimers ∧ t.uri = u := by
  simp [pendingFor, List.mem_filter]

/-- The timer invariant bounds the pending timers of every uri by one. -/
theorem timerInv_at_most_one (st : ProviderState) (hinv : TimerInv st) (u : String) :
    (pendingFor st u).length ≤ 1 := by
  obtain ⟨h1, h2, h3, h4⟩ := hinv
  cases hpf : pendingFor st u with
  | nil => simp
  | cons a l =>
    cases l with
    | nil => simp
    | cons b l2 =>
      exfalso
      have hpair : (pendingFor st u).Pairwise (fun x y => x.id ≠ y.id) :=
        List.Pairwise.sublist (List.filter_sublist _) h4
      rw [hpf] at hpair
      have hab : a.id ≠ b.id := (List.pairwise_cons.mp hpair).1 b (by simp)
      have ha : a ∈ pendingFor st u := by
        rw [hpf]
        simp
      have hb : b ∈ pendingFor st u := by
        rw [hpf]
        simp
      obtain ⟨ham, hau⟩ := mem_pendingFor.mp ha
      obtain ⟨hbm, hbu⟩ := mem_pendingFor.mp hb
      have h1a := (h1 a ham).1
      have h1b := (h1 b hbm).1
      rw [hau] at h1a
      rw [hbu] at h1b
      rw [h1a] at h1b
      exact hab (Option.some.inj h1b)

/-- One schedule step: the invariant is preserved, the id counter advances,
the scheduled uri has exactly the one fresh timer carrying this document, and
every other uri keeps its pending timers unchanged. -/
theorem lintWithDebounce_spec (st : ProviderState) (d : TextDocument)
    (hinv : TimerInv st) :
    TimerInv (lintWithDebounce st d) ∧
    (lintWithDebounce st d).nextTimerId = st.nextTimerId + 1 ∧
    pendingFor (lintWithDebounce st d) d.uri = [⟨st.nextTimerId, d.uri, d⟩] ∧
    (∀ v, v ≠ d.uri → pendingFor (lintWithDebounce st d) v = pendingFor st v) := by
  obtain ⟨h1, h2, h3, h4⟩ := hinv
  cases hmap : st.debounceTimers d.uri with
  | none =>
    have hnopend : ∀ t ∈ st.pendingTimers, t.uri ≠ d.uri := by
      intro t ht habs
      have h1t := (h1 t ht).1
      rw [habs, hmap] at h1t
      exact absurd h1t (by simp)
    have hpend2 : (lintWithDebounce st d).pendingTimers =
        st.pendingTimers ++ [⟨st.nextTimerId, d.uri, d⟩] := by
      simp only [lintWithDebounce, hmap]
    have hmap2 : (lintWithDebounce st d).debounceTimers =
        mapSet st.debounceTimers d.uri st.nextTimerId := by
      simp only [lintWithDebounce, hmap]
    have hnext2 : (lintWithDebounce st d).nextTimerId = st.nextTimerId + 1 := by
      simp only [lintWithDebounce, hmap]
    refine ⟨⟨?_, ?_, ?_, ?_⟩, hnext2, ?_, ?_⟩
    · intro t ht
      rw [hpend2] at ht
      rw [hmap2, hnext2]
      rcases List.mem_append.mp ht with htl | htr
      · have h1t := h1 t htl
        rw [mapSet_other _ _ _ _ (hnopend t htl)]
        exact ⟨h1t.1, by omega⟩
      · have heqt : t = ⟨st.nextTimerId, d.uri, d⟩ := by simpa using htr
        subst heqt
        exact ⟨mapSet_self _ _ _, by show st.nextTimerId < st.nextTimerId + 1; omega⟩
    · intro v i hv
      rw [hmap2] at hv
      rw [hnext2]
      by_cases hvd : v = d.uri
      · subst hvd
        rw [mapSet_self] at hv
        have : i = st.nextTimerId := (Option.some.inj hv).symm
        omega
      · rw [mapSet_other _ _ _ _ hvd] at hv
        have := h2 v i hv
        omega
    · intro t ht v hv
      rw [hpend2] at ht
      rw [hmap2] at hv
      rcases List.mem_append.mp ht with htl | htr
      · by_cases hvd : v = d.uri
        · subst hvd
          rw [mapSet_self] at hv
          have hid : t.id = st.nextTimerId := (Option.some.inj hv).symm
          have := (h1 t htl).2
          omega
        · rw [mapSet_other _ _ _ _ hvd] at hv
          exact h3 t htl v hv
      · have heqt : t = ⟨st.nextTimerId, d.uri, d⟩ := by simpa using htr
        subst heqt
        by_cases hvd : v = d.uri
        · exact hvd
        · rw [mapSet_other _ _ _ _ hvd] at hv
          have hlt := h2 v _ hv
          exact absurd hlt (by simp)
    · rw [hpend2]
      rw [List.pairwise_append]
      refine ⟨h4, by simp, ?_⟩
      intro a ha b hb
      have hbe : b = ⟨st.nextTimerId, d.uri, d⟩ := by simpa using hb
      subst hbe
      have := (h1 a ha).2
      show a.id ≠ st.nextTimerId
      omega
    · unfold pendingFor
      rw [hpend2, List.filter_append]
      have hl : st.pendingTimers.filter (fun t => t.uri == d.uri) = [] := by
        rw [List.filter_eq_nil_iff]
        intro a ha
        simp [hnopend a ha]
      rw [hl]
      simp
    · intro v hv
      unfold pendingFor
      rw [hpend2, List.filter_append]
      have hr : [(⟨st.nextTimerId, d.uri, d⟩ : PendingTimer)].filter
          (fun t => t.uri == v) = [] := by
        simp [Ne.symm hv]
      rw [hr]
      simp
  | some e =>
    have hmemf : ∀ t, t ∈ st.pendingTimers.filter (fun t => t.id ≠ e) →
        t ∈ st.pendingTimers ∧ t.uri ≠ d.uri ∧ t.id ≠ e := by
      intro t ht
      rw [List.mem_filter] at ht
      obtain ⟨htm, hid⟩ := ht
      have hidne : t.id ≠ e := by simpa using hid
      refine ⟨htm, ?_, hidne⟩
      intro habs
      have h1t := (h1 t htm).1
      rw [habs, hmap] at h1t
      exact hidne (Option.some.inj h1t.symm)
    have hpend2 : (lintWithDebounce st d).pendingTimers =
        st.pendingTimers.filter (fun t => t.id ≠ e) ++ [⟨st.nextTimerId, d.uri, d⟩] := by
      simp only [lintWithDebounce, hmap]
    have hmap2 : (lintWithDebounce st d).debounceTimers =
        mapSet st.debounceTimers d.uri st.nextTimerId := by
      simp only [lintWithDebounce, hmap]
    have hnext2 : (lintWithDebounce st d).nextTimerId = st.nextTimerId + 1 := by
      simp only [lintWithDebounce, hmap]
    refine ⟨⟨?_, ?_, ?_, ?_⟩, hnext2, ?_, ?_⟩
    · intro t ht
      rw [hpend2] at ht
      rw [hmap2, hnext2]
      rcases List.mem_append.mp ht with htl | htr
      · obtain ⟨htm, htu, _⟩ := hmemf t htl
        have h1t := h1 t htm
        rw [mapSet_other _ _ _ _ htu]
        exact ⟨h1t.1, by omega⟩
      · have heqt : t = ⟨st.nextTimerId, d.uri, d⟩ := by simpa using htr
        subst heqt
        exact ⟨mapSet_self _ _ _, by show st.nextTimerId < st.nextTimerId + 1; omega⟩
    · intro v i hv
      rw [hmap2] at hv
      rw [hnext2]
      by_cases hvd : v = d.uri
      · subst hvd
        rw [mapSet_self] at hv
        have : i = st.nextTimerId := (Option.some.inj hv).symm
        omega
      · rw [mapSet_other _ _ _ _ hvd] at hv
        have := h2 v i hv
        omega
    · intro t ht v hv
      rw [hpend2] at ht
      rw [hmap2] at hv
      rcases List.mem_append.mp ht with htl | htr
      · obtain ⟨htm, htu, _⟩ := hmemf t htl
        by_cases hvd : v = d.uri
        · subst hvd
          rw [mapSet_self] at hv
          have hid : t.id = st.nextTimerId := (Option.some.inj hv).symm
          have := (h1 t htm).2
          omega
        · rw [mapSet_other _ _ _ _ hvd] at hv
          exact h3 t htm v hv
      · have heqt : t = ⟨st.nextTimerId, d.uri, d⟩ := by simpa using htr
        subst heqt
        by_cases hvd : v = d.uri
        · exact hvd
        · rw [mapSet_other _ _ _ _ hvd] at hv
          have hlt := h2 v _ hv
          exact absurd hlt (by simp)
    · rw [hpend2]
      rw [List.pairwise_append]
      refine ⟨List.Pairwise.sublist (List.filter_sublist _) h4, by simp, ?_⟩
      intro a ha b hb
      have hbe : b = ⟨st.nextTimerId, d.uri, d⟩ := by simpa using hb
      subst hbe
      obtain ⟨ham, _, _⟩ := hmemf a ha
      have := (h1 a ham).2
      show a.id ≠ st.nextTimerId
      omega
    · unfold pendingFor
      rw [hpend2, List.filter_append]
      have hl : (st.pendingTimers.filter (fun t => t.id ≠ e)).filter
          (fun t => t.uri == d.uri) = [] := by
        rw [List.filter_eq_nil_iff]
        intro a ha
        obtain ⟨_, hau, _⟩ := hmemf a ha
        simp [hau]
      rw [hl]
      simp
    · intro v hv
      unfold pendingFor
      rw [hpend2, List.filter_append]
      have hr : [(⟨st.nextTimerId, d.uri, d⟩ : PendingTimer)].filter
          (fun t => t.uri == v) = [] := by
        simp [Ne.symm hv]
      rw [hr, List.append_nil]
      rw [List.filter_filter]
      apply List.filter_congr
      intro a ha
      by_cases hav : a.uri = v
      · have haid : a.id ≠ e := by
          intro habs
          have harg : st.debounceTimers d.uri = some a.id := by rw [hmap, habs]
          have hd : d.uri = a.uri := h3 a ha d.uri harg
          exact hv (by rw [← hav]; exact hd.symm)
        simp [hav, haid]
      · simp [hav]

/-- Map.delete returns nothing at the removed key. -/
theorem mapDelete_self {α : Type} (m : String → Option α) (k : String) :
    mapDelete m k k = none := by
  simp [mapDelete]

/-- Map.delete leaves every other key unchanged. -/
theorem mapDelete_other {α : Type} (m : String → Option α) (k x : String)
    (h : x ≠ k) : mapDelete m k x = m x := by
  simp [mapDelete, h]

/-- The clear operation preserves the timer invariant. -/
theorem clear_timer_inv (st : ProviderState) (d : TextDocument) (hinv : TimerInv st) :
    TimerInv (clear st d) := by
  obtain ⟨h1, h2, h3, h4⟩ := hinv
  cases hmap : st.debounceTimers d.uri with
  | none =>
    have heq : clear st d = { st with diagnostics := mapDelete st.diagnostics d.uri } := by
      simp only [clear, hmap]
    rw [heq]
    exact ⟨h1, h2, h3, h4⟩
  | some timer =>
    have hpend2 : (clear st d).pendingTimers =
        st.pendingTimers.filter (fun t => t.id ≠ timer) := by
      simp only [clear, hmap]
    have hmap2 : (clear st d).debounceTimers = mapDelete st.debounceTimers d.uri := by
      simp only [clear, hmap]
    have hnext2 : (clear st d).nextTimerId = st.nextTimerId := by
      simp only [clear, hmap]
    have hmemf : ∀ t, t ∈ st.pendingTimers.filter (fun t => t.id ≠ timer) →
        t ∈ st.pendingTimers ∧ t.uri ≠ d.uri ∧ t.id ≠ timer := by
      intro t ht
      rw [List.mem_filter] at ht
      obtain ⟨htm, hid⟩ := ht
      have hidne : t.id ≠ timer := by simpa using hid
      refine ⟨htm, ?_, hidne⟩
      intro habs
      have h1t := (h1 t htm).1
      rw [habs, hmap] at h1t
      exact hidne (Option.some.inj h1t.symm)
    refine ⟨?_, ?_, ?_, ?_⟩
    · intro t ht
      rw [hpend2] at ht
      rw [hmap2, hnext2]
      obtain ⟨htm, htu, _⟩ := hmemf t ht
      rw [mapDelete_other _ _ _ htu]
      exact h1 t htm
    · intro v i hv
      rw [hmap2] at hv
      rw [hnext2]
      by_cases hvd : v = d.uri
      · subst hvd
        rw [mapDelete_self] at hv
        exact absurd hv (by simp)
      · rw [mapDelete_other _ _ _ hvd] at hv
        exact h2 v i hv
    · intro t ht v hv
      rw [hpend2] at ht
      rw [hmap2] at hv
      obtain ⟨htm, _, _⟩ := hmemf t ht
      by_cases hvd : v = d.uri
      · subst hvd
        rw [mapDelete_self] at hv
        exact absurd hv (by simp)
      · rw [mapDelete_other _ _ _ hvd] at hv
        exact h3 t htm v hv
    · rw [hpend2]
      exact List.Pairwise.sublist (List.filter_sublist _) h4

/-- An enabled lint touches no timer field. -/
theorem lint_timer_fields (env : Env) (st : ProviderState) (d : TextDocument)
    (hen : env.enable = true) :
    (lint env st d).pendingTimers = st.pendingTimers ∧
    (lint env st d).debounceTimers = st.debounceTimers ∧
    (lint env st d).nextTimerId = st.nextTimerId := by
  obtain ⟨hp, hdb, hnt, hdiag, hdt⟩ := (getYamlLintConfig_spec env st).2.2
  cases hrun : env.runAll d.getText (getYamlLintConfig env st).1 d.fsPath with
  | ok ps =>
    have heq : lint env st d =
        { (getYamlLintConfig env st).2 with
          diagnostics := mapSet (getYamlLintConfig env st).2.diagnostics d.uri
            (ps.map (fun problem => problemToDiagnostic problem d)) } := by
      simp only [lint, hen, if_true, hrun]
    rw [heq]
    exact ⟨hp, hdb, hnt⟩
  | error e =>
    have heq : lint env st d =
        { (getYamlLintConfig env st).2 with
          diagnostics := mapSet (getYamlLintConfig env st).2.diagnostics d.uri
            [{ range := ⟨0, 0, 0, 0⟩
               message := "yamllint error: " ++ e
               severity := DiagnosticSeverity.Error
               source := some "yamllint"
               code := none }] } := by
      simp only [lint, hen, if_true, hrun]
    rw [heq]
    exact ⟨hp, hdb, hnt⟩

/-- The lint operation preserves the timer invariant. -/
theorem lint_timer_inv (env : Env) (st : ProviderState) (d : TextDocument)
    (hinv : TimerInv st) : TimerInv (lint env st d) := by
  cases hen : env.enable with
  | false =>
    have heq : lint env st d = clear st d := by
      simp [lint, hen]
    rw [heq]
    exact clear_timer_inv st d hinv
  | true =>
    obtain ⟨hp, hdb, hnt⟩ := lint_timer_fields env st d hen
    obtain ⟨h1, h2, h3, h4⟩ := hinv
    refine ⟨?_, ?_, ?_, ?_⟩
    · rw [hp, hdb, hnt]
      exact h1
    · rw [hdb, hnt]
      exact h2
    · rw [hp, hdb]
      exact h3
    · rw [hp]
      exact h4

/-- Firing a timer preserves the timer invariant; firing a cancelled id is a
no-op. -/
theorem fireTimer_inv (env : Env) (st : ProviderState) (id : Nat)
    (hinv : TimerInv st) : TimerInv (fireTimer env st id) := by
  cases hf : st.pendingTimers.find? (fun t => t.id == id) with
  | none =>
    have heq : fireTimer env st id = st := by
      simp only [fireTimer, hf]
    rw [heq]
    exact hinv
  | some t =>
    obtain ⟨h1, h2, h3, h4⟩ := hinv
    have htm : t ∈ st.pendingTimers := List.mem_of_find?_eq_some hf
    have htid : t.id = id := by
      have := List.find?_some hf
      simpa using this
    have heq : fireTimer env st id =
        lint env
          { st with
            pendingTimers := st.pendingTimers.filter (fun u => u.id ≠ id),
            debounceTimers := mapDelete st.debounceTimers t.uri } t.doc := by
      simp only [fireTimer, hf]
    rw [heq]
    apply lint_timer_inv
    have hmemf : ∀ x, x ∈ st.pendingTimers.filter (fun u => u.id ≠ id) →
        x ∈ st.pendingTimers ∧ x.uri ≠ t.uri ∧ x.id ≠ id := by
      intro x hx
      rw [List.mem_filter] at hx
      obtain ⟨hxm, hid⟩ := hx
      have hidne : x.id ≠ id := by simpa using hid
      refine ⟨hxm, ?_, hidne⟩
      intro habs
      have h1x := (h1 x hxm).1
      have h1t := (h1 t htm).1
      rw [habs] at h1x
      rw [h1t] at h1x
      have : t.id = x.id := Option.some.inj h1x
      rw [htid] at this
      exact hidne this.symm
    refine ⟨?_, ?_, ?_, ?_⟩
    · intro x hx
      obtain ⟨hxm, hxu, _⟩ := hmemf x hx
      show mapDelete st.debounceTimers t.uri x.uri = some x.id ∧ x.id < st.nextTimerId
      rw [mapDelete_other _ _ _ hxu]
      exact h1 x hxm
    · intro v i hv
      have hv2 : mapDelete st.debounceTimers t.uri v = some i := hv
      show i < st.nextTimerId
      by_cases hvt : v = t.uri
      · subst hvt
        rw [mapDelete_self] at hv2
        exact absurd hv2 (by simp)
      · rw [mapDelete_other _ _ _ hvt] at hv2
        exact h2 v i hv2
    · intro x hx v hv
      obtain ⟨hxm, _, _⟩ := hmemf x hx
      have hv2 : mapDelete st.debounceTimers t.uri v = some x.id := hv
      by_cases hvt : v = t.uri
      · subst hvt
        rw [mapDelete_self] at hv2
        exact absurd hv2 (by simp)
      · rw [mapDelete_other _ _ _ hvt] at hv2
        exact h3 x hxm v hv2
    · exact List.Pairwise.sublist (List.filter_sublist _) h4

/-- Every provider operation preserves the timer invariant. -/
theorem applyOp_timer_inv (env : Env) (st : ProviderState) (op : ProviderOp)
    (hinv : TimerInv st) : TimerInv (applyOp env st op) := by
  cases op with
  | oplint d => exact lint_timer_inv env st d hinv
  | opdebounce d => exact (lintWithDebounce_spec st d hinv).1
  | opclear d => exact clear_timer_inv st d hinv
  | opfire id => exact fireTimer_inv env st id hinv
  | opupdate => exact hinv

/-- Folding schedule calls for one uri: the invariant holds, the id counter
never decreases, the uri ends with exactly one fresh pending timer carrying
the document of the last call, and every other uri is untouched. -/
theorem foldl_debounce_spec :
    ∀ (docs : List TextDocument) (st : ProviderState) (u : String),
      TimerInv st → docs ≠ [] → (∀ d ∈ docs, d.uri = u) →
      TimerInv (List.foldl lintWithDebounce st docs) ∧
      st.nextTimerId ≤ (List.foldl lintWithDebounce st docs).nextTimerId ∧
      (∃ d, docs.getLast? = some d ∧
        ∃ i, st.nextTimerId ≤ i ∧
          pendingFor (List.foldl lintWithDebounce st docs) u = [⟨i, u, d⟩]) ∧
      (∀ v, v ≠ u → pendingFor (List.foldl lintWithDebounce st docs) v =
        pendingFor st v) := by
  intro docs
  induction docs with
  | nil =>
    intro st u hinv hne hu
    exact absurd rfl hne
  | cons d rest ih =>
    intro st u hinv hne hu
    have hdu : d.uri = u := hu d (by simp)
    obtain ⟨hinv1, hnext1, hself1, hother1⟩ := lintWithDebounce_spec st d hinv
    cases rest with
    | nil =>
      simp only [List.foldl_cons, List.foldl_nil]
      refine ⟨hinv1, by omega, ⟨d, by simp, st.nextTimerId, by omega, ?_⟩, ?_⟩
      · rw [← hdu]
        exact hself1
      · intro v hv
        exact hother1 v (by rw [hdu]; exact hv)
    | cons e rest2 =>
      rw [List.foldl_cons]
      obtain ⟨hinvf, hnextf, ⟨dl, hlast, i, hi, hpf⟩, hotherf⟩ :=
        ih (lintWithDebounce st d) u hinv1 (by simp)
          (fun x hx => hu x (List.mem_cons_of_mem _ hx))
      rw [hnext1] at hnextf hi
      refine ⟨hinvf, by omega, ⟨dl, ?_, i, by omega, hpf⟩, ?_⟩
      · rw [List.getLast?_cons_cons]
        exact hlast
      · intro v hv
        rw [hotherf v hv, hother1 v (by rw [hdu]; exact hv)]

/-- C2: for every document identity at most one pending debounce timer exists
at any instant: the timer consistency invariant bounds the pending timers of
every uri by one and is preserved by every provider operation; N rapid
schedule calls (lintWithDebounce) for one document uri leave exactly one
pending timer, carrying the document of the last call; and every timer that
was pending for that uri before the calls has been cancelled, so firing its id
afterwards does nothing. -/
theorem debounce_single_pending (env : Env) (st : ProviderState) (hinv : TimerInv st)
    (docs : List TextDocument) (u : String) (hne : docs ≠ [])
    (hu : ∀ d ∈ docs, d.uri = u) :
    (∀ v, (pendingFor st v).length ≤ 1) ∧
    (∀ op, TimerInv (applyOp env st op)) ∧
    TimerInv (List.foldl lintWithDebounce st docs) ∧
    (∃ d, docs.getLast? = some d ∧
      ∃ i, st.nextTimerId ≤ i ∧
        pendingFor (List.foldl lintWithDebounce st docs) u = [⟨i, u, d⟩]) ∧
    (∀ t ∈ pendingFor st u,
      t ∉ (List.foldl lintWithDebounce st docs).pendingTimers ∧
      fireTimer env (List.foldl lintWithDebounce st docs) t.id =
        List.foldl lintWithDebounce st docs) := by
  obtain ⟨h1, h2, h3, h4⟩ := hinv
  obtain ⟨hinvf, hnextf, ⟨dl, hlast, i, hi, hpf⟩, hotherf⟩ :=
    foldl_debounce_spec docs st u ⟨h1, h2, h3, h4⟩ hne hu
  refine ⟨fun v => timerInv_at_most_one st ⟨h1, h2, h3, h4⟩ v,
    fun op => applyOp_timer_inv env st op ⟨h1, h2, h3, h4⟩,
    hinvf, ⟨dl, hlast, i, hi, hpf⟩, ?_⟩
  intro t htp
  obtain ⟨htm, htu⟩ := mem_pendingFor.mp htp
  have htlt : t.id < st.nextTimerId := (h1 t htm).2
  have hnotin : t ∉ (List.foldl lintWithDebounce st docs).pendingTimers := by
    intro habs
    have hmem : t ∈ pendingFor (List.foldl lintWithDebounce st docs) u :=
      mem_pendingFor.mpr ⟨habs, htu⟩
    rw [hpf] at hmem
    have hte : t = ⟨i, u, dl⟩ := by simpa using hmem
    have hti : t.id = i := by rw [hte]
    omega
  refine ⟨hnotin, ?_⟩
  have hfind : (List.foldl lintWithDebounce st docs).pendingTimers.find?
      (fun x => x.id == t.id) = none := by
    rw [List.find?_eq_none]
    intro x hx
    simp only [beq_iff_eq]
    intro habs
    by_cases hxu : x.uri = u
    · have hmem : x ∈ pendingFor (List.foldl lintWithDebounce st docs) u :=
        mem_pendingFor.mpr ⟨hx, hxu⟩
      rw [hpf] at hmem
      have hxe : x = ⟨i, u, dl⟩ := by simpa using hmem
      have hxi : x.id = i := by rw [hxe]
      omega
    · have hmem : x ∈ pendingFor (List.foldl lintWithDebounce st docs) x.uri :=
        mem_pendingFor.mpr ⟨hx, rfl⟩
      rw [hotherf x.uri hxu] at hmem
      obtain ⟨hxm, _⟩ := mem_pendingFor.mp hmem
      have hxt : x ≠ t := by
        intro habs2
        rw [habs2] at hxu
        exact hxu htu
      have : x.id ≠ t.id :=
        List.Pairwise.forall (fun _ _ h => Ne.symm h) h4 hxm htm hxt
      exact this habs
  simp only [fireTimer, hfind]

/-- A second concrete document sharing the uri of docA. -/
def docB : TextDocument := ⟨"file:///a.yaml", "/a.yaml", [['b']]⟩

/-- C2 witness: two rapid schedule calls for the same uri starting from the
empty provider state leave exactly one pending timer, carrying the second
document. -/
theorem debounce_single_pending_witness :
    ∃ d, [docA, docB].getLast? = some d ∧
      ∃ i, emptyState.nextTimerId ≤ i ∧
        pendingFor (List.foldl lintWithDebounce emptyState [docA, docB])
          "file:///a.yaml" = [⟨i, "file:///a.yaml", d⟩] := by
  have hinv : TimerInv emptyState := by
    refine ⟨?_, ?_, ?_, ?_⟩
    · intro t ht
      exact absurd ht (by simp [emptyState])
    · intro v id h
      exact absurd h (by simp [emptyState])
    · intro t ht
      exact absurd ht (by simp [emptyState])
    · exact List.Pairwise.nil
  have hu : ∀ d ∈ [docA, docB], d.uri = "file:///a.yaml" := by
    intro d hd
    simp at hd
    rcases hd with h | h <;> subst h <;> rfl
  obtain ⟨_, _, _, hex, _⟩ := debounce_single_pending envEngineFails emptyState hinv
    [docA, docB] "file:///a.yaml" (by simp) hu
  exact hex

end Yamllint
